import Mathlib

/-!
Verification of `patchNestjsSwagger` (src: patch-nest-swagger.ts).

The repository monkey-patches two methods of `@nestjs/swagger`:

* `SchemaObjectFactory.prototype.exploreModelSchema`: resolves lazy type
  references, and for types carrying a `zodSchema` marker registers
  `(type.name, type.zodSchema)` into a closure-scoped `OpenAPIRegistry`
  and returns `type.name`; otherwise it delegates to the original method.

* `SwaggerScanner.prototype.scanApplication`: calls the original scan,
  generates OpenAPI components from the registry, merges them over the
  scan-produced `components.schemas` with JavaScript object-spread
  semantics (`{...a, ...b}`), applies the configured sort policy
  (`default` / `alpha` / `localeCompare`), and writes the result back
  into the document.

JavaScript objects are embedded as insertion-ordered association lists
with no duplicate keys; `jsObjInsert` is the embedding of a JS property
assignment `obj[k] = v` (update in place when the key exists, append
otherwise), and `jsSpread a b = {...a, ...b}`.  Schema objects are opaque
payloads, so all definitions are polymorphic in the schema type `σ`.
JS `Array.prototype.sort` is stable; a stable insertion sort with
`le a b := (compare a b ≤ 0)` embeds it.
-/

/-- Embedding of a JS property assignment `m[k] = v`: if `k` is already a
key of `m`, its value is updated in place (position preserved); otherwise
`(k, v)` is appended at the end. -/
def jsObjInsert {σ : Type} : List (String × σ) → String → σ → List (String × σ)
  | [], k, v => [(k, v)]
  | p :: rest, k, v => if p.1 = k then (k, v) :: rest else p :: jsObjInsert rest k v

/-- Embedding of the JS object spread `{...a, ...b}` (src line 71-74):
start from `a` and assign each entry of `b` in order. -/
def jsSpread {σ : Type} (a b : List (String × σ)) : List (String × σ) :=
  b.foldl (fun m p => jsObjInsert m p.1 p.2) a

/-- Property lookup on a JS object embedding. -/
def lookupJs {σ : Type} (m : List (String × σ)) (k : String) : Option σ :=
  (m.find? (fun p => p.1 = k)).map (fun p => p.2)

/-- A concrete (non-lazy) type reference: a class with a `name` and an
optional `zodSchema` marker attribute (src line 48: `!type.zodSchema`). -/
structure TypeRef (σ : Type) where
  name : String
  zodSchema : Option σ

/-- A type argument to `exploreModelSchema`: either a concrete type or a
lazy zero-argument function returning one (src line 43: `isLazyTypeFunc`). -/
inductive TypeInput (σ : Type) where
  | direct (t : TypeRef σ)
  | lazy (f : Unit → TypeRef σ)

/-- Resolution step of src lines 43-46: a lazy type function is invoked
with no arguments; a direct reference is used as is. -/
def resolveLazyType {σ : Type} : TypeInput σ → TypeRef σ
  | .direct t => t
  | .lazy f => f ()

/-- Result of an explore call: either a schema name (string) or an inline
schema object produced by the original implementation. -/
inductive ExploreRes (σ : Type) where
  | name (s : String)
  | inlineSchema (s : σ)
deriving DecidableEq

/-- Return value and state effects of the original (unpatched)
`exploreModelSchema`: it returns a result and may have added entries to
the shared `schemas` map and changed the `schemaRefsStack`. -/
structure OrigExploreResult (σ : Type) where
  result : ExploreRes σ
  schemas : List (String × σ)
  schemaRefsStack : List String
deriving DecidableEq

/-- Full outcome of the patched `exploreModelSchema`: its return value
together with the registry, schemas map and refs stack afterwards. -/
structure PatchedExploreResult (σ : Type) where
  result : ExploreRes σ
  registry : List (String × σ)
  schemas : List (String × σ)
  schemaRefsStack : List String
deriving DecidableEq

/-- Modelled from the spec and the `@asteasolutions/zod-to-openapi`
contract: `OpenAPIRegistry.register(name, schema)` (src line 52) appends
a definition to the registry's ordered definition list. -/
def registryRegister {σ : Type} (registry : List (String × σ)) (n : String) (s : σ) :
    List (String × σ) :=
  registry ++ [(n, s)]

/-- Modelled from the spec: `new OpenApiGeneratorV3(registry.definitions)
.generateComponents()` (src lines 68-69) builds the component-schema map
from the registered definitions in order, a later definition under a name
overwriting an earlier one. -/
def generateComponents {σ : Type} (defs : List (String × σ)) : List (String × σ) :=
  defs.foldl (fun m p => jsObjInsert m p.1 p.2) []

/-- The patched `exploreModelSchema` (src lines 38-55).  The original
implementation is passed in as `orig`; `registry` is the closure-scoped
Schema Registry before the call. -/
def exploreModelSchema {σ : Type}
    (orig : TypeRef σ → List (String × σ) → List String → OrigExploreResult σ)
    (registry : List (String × σ)) (type : TypeInput σ)
    (schemas : List (String × σ)) (schemaRefsStack : List String) :
    PatchedExploreResult σ :=
  let t := resolveLazyType type
  match t.zodSchema with
  | none =>
      let r := orig t schemas schemaRefsStack
      ⟨r.result, registry, r.schemas, r.schemaRefsStack⟩
  | some zs =>
      ⟨ExploreRes.name t.name, registryRegister registry t.name zs, schemas, schemaRefsStack⟩

/-- Strict lexicographic order on character lists, comparing code
points: the shorter list is smaller when one is a prefix of the other. -/
def charListLtB : List Char → List Char → Bool
  | _, [] => false
  | [], _ :: _ => true
  | c :: cs, d :: ds =>
      if c.toNat < d.toNat then true
      else if d.toNat < c.toNat then false
      else charListLtB cs ds

/-- The JS string relational operator `a < b`: lexicographic comparison
of the character sequences. -/
def stringLtB (a b : String) : Bool :=
  charListLtB a.data b.data

/-- The comparator of the `alpha` branch (src lines 77-81):
`if (aKey < bKey) return -1; if (aKey > bKey) return 1; return 0`. -/
def alphaCompare (a b : String) : Int :=
  if stringLtB a b then -1 else if stringLtB b a then 1 else 0

/-- Sort step of src lines 76-92 applied to the merged schema map.
`localeCmp` stands for the JS `String.prototype.localeCompare` of the
running locale.  JS `Array.prototype.sort` is stable and places `a`
before `b` when the comparator is `≤ 0`, which a stable insertion sort
with that relation embeds.  Any `sort` value other than the two
recognized ones falls through to the no-op `else` branch. -/
def applySortPolicy {σ : Type} (sort : String) (localeCmp : String → String → Int)
    (m : List (String × σ)) : List (String × σ) :=
  if sort = "alpha" then
    List.insertionSort (fun p q : String × σ => alphaCompare p.1 q.1 ≤ 0) m
  else if sort = "localeCompare" then
    List.insertionSort (fun p q : String × σ => localeCmp p.1 q.1 ≤ 0) m
  else m

/-- The `components` member of an OpenAPI document: the schema map plus
all its other members (`π`), which the patch never touches. -/
structure Components (σ π : Type) where
  schemas : List (String × σ)
  rest : π
deriving DecidableEq

/-- An OpenAPI document: `components` plus all other fields (`ρ`:
`paths`, `info`, ...), which the patch never touches. -/
structure OpenAPIObject (σ π ρ : Type) where
  components : Components σ π
  rest : ρ
deriving DecidableEq

/-- The patched `scanApplication` (src lines 62-95).  `orgScan` is the
original implementation, `registry` the content of the Schema Registry
after the original scan ran, `sort` the configured policy. -/
def scanApplication {σ π ρ α β : Type} (sort : String)
    (localeCmp : String → String → Int)
    (orgScan : α → β → OpenAPIObject σ π ρ) (registry : List (String × σ))
    (app : α) (options : β) : OpenAPIObject σ π ρ :=
  let openAPIObject := orgScan app options
  let doc := generateComponents registry
  let schemas := jsSpread openAPIObject.components.schemas doc
  { openAPIObject with
      components := { openAPIObject.components with
        schemas := applySortPolicy sort localeCmp schemas } }

/-- The two optional collaborator-module handles of the second parameter
of `patchNestjsSwagger` (src lines 26-29); `none` means not supplied. -/
structure PatchModules (M : Type) where
  schemaObjectFactoryModule : Option M
  swaggerScannerModule : Option M

/-- Configuration resolved by `patchNestjsSwagger` (src lines 24-30):
the sort policy (destructuring default `'default'`) and the two
collaborator modules (defaulting to `require` of the real framework
module paths). -/
structure PatchConfig (M : Type) where
  sort : String
  schemaObjectFactoryModule : M
  swaggerScannerModule : M

/-- Parameter resolution of `patchNestjsSwagger` (src lines 24-30).
`requireModule` embeds Node's `require`; `sortOpt = none` embeds an
omitted `sort` property. -/
def patchNestjsSwagger {M : Type} (requireModule : String → M)
    (sortOpt : Option String) (mods : PatchModules M) : PatchConfig M :=
  { sort := sortOpt.getD "default"
    schemaObjectFactoryModule := mods.schemaObjectFactoryModule.getD
      (requireModule "@nestjs/swagger/dist/services/schema-object-factory")
    swaggerScannerModule := mods.swaggerScannerModule.getD
      (requireModule "@nestjs/swagger/dist/swagger-scanner") }

/-- Concrete stand-in for the original `exploreModelSchema`, used to
instantiate theorems: it returns an inline schema and touches both the
schemas map and the refs stack, so preservation statements are not
vacuous. -/
def exOrig : TypeRef Nat → List (String × Nat) → List String → OrigExploreResult Nat :=
  fun t s st => ⟨ExploreRes.inlineSchema 42, ("orig", 0) :: s, t.name :: st⟩

/-- Concrete stand-in for the original `scanApplication`: a document with
schema keys `b`, `A`, `c` (the spec's sorting example) and nontrivial
values in the untouched fields. -/
def exOrgScan : Unit → Unit → OpenAPIObject Nat Bool Nat :=
  fun _ _ => ⟨⟨[("b", 1), ("A", 2), ("c", 3)], true⟩, 7⟩

/-- Degenerate locale comparator used to instantiate theorems. -/
def exLocale : String → String → Int :=
  fun _ _ => 0

/-! ### Basic lemmas about the JS-object embedding -/

theorem lookupJs_jsObjInsert_self {σ : Type} (m : List (String × σ)) (k : String) (v : σ) :
    lookupJs (jsObjInsert m k v) k = some v := by
  induction m with
  | nil => simp [jsObjInsert, lookupJs]
  | cons p rest ih =>
      by_cases h : p.1 = k
      · simp [jsObjInsert, h, lookupJs]
      · simp [jsObjInsert, h, lookupJs, List.find?] at ih ⊢
        simpa [h] using ih

theorem lookupJs_jsObjInsert_ne {σ : Type} (m : List (String × σ)) (k k' : String) (v : σ)
    (h : k' ≠ k) : lookupJs (jsObjInsert m k v) k' = lookupJs m k' := by
  induction m with
  | nil =>
      unfold jsObjInsert lookupJs
      rw [List.find?_cons_of_neg _ (by simp [Ne.symm h])]
  | cons p rest ih =>
      unfold jsObjInsert
      by_cases hp : p.1 = k
      · rw [if_pos hp]
        unfold lookupJs
        rw [List.find?_cons_of_neg _ (by simp [Ne.symm h]),
          List.find?_cons_of_neg _ (by simp [hp, Ne.symm h])]
      · rw [if_neg hp]
        by_cases hp' : p.1 = k'
        · unfold lookupJs
          rw [List.find?_cons_of_pos _ (by simp [hp']),
            List.find?_cons_of_pos _ (by simp [hp'])]
        · unfold lookupJs
          unfold lookupJs at ih
          rw [List.find?_cons_of_neg _ (by simp [hp']),
            List.find?_cons_of_neg _ (by simp [hp'])]
          exact ih

theorem keys_jsObjInsert {σ : Type} (m : List (String × σ)) (k : String) (v : σ) :
    (jsObjInsert m k v).map Prod.fst =
      if k ∈ m.map Prod.fst then m.map Prod.fst else m.map Prod.fst ++ [k] := by
  induction m with
  | nil => simp [jsObjInsert]
  | cons p rest ih =>
      by_cases h : p.1 = k
      · simp [jsObjInsert, h]
      · simp only [jsObjInsert, if_neg h, List.map_cons, ih]
        by_cases hm : k ∈ rest.map Prod.fst
        · simp [hm, Ne.symm h]
        · simp [hm, Ne.symm h]

theorem nodupKeys_jsObjInsert {σ : Type} (m : List (String × σ)) (k : String) (v : σ)
    (h : (m.map Prod.fst).Nodup) : ((jsObjInsert m k v).map Prod.fst).Nodup := by
  rw [keys_jsObjInsert]
  by_cases hm : k ∈ m.map Prod.fst
  · simpa [hm] using h
  · simp only [hm, if_false]
    exact List.Nodup.append h (List.nodup_singleton k) (by simpa using hm)

theorem jsSpread_nil {σ : Type} (a : List (String × σ)) : jsSpread a [] = a := rfl

theorem jsSpread_cons {σ : Type} (a : List (String × σ)) (p : String × σ)
    (b : List (String × σ)) :
    jsSpread a (p :: b) = jsSpread (jsObjInsert a p.1 p.2) b := rfl

theorem nodupKeys_jsSpread {σ : Type} (a b : List (String × σ))
    (h : (a.map Prod.fst).Nodup) : ((jsSpread a b).map Prod.fst).Nodup := by
  induction b generalizing a with
  | nil => simpa [jsSpread_nil] using h
  | cons p b ih => exact jsSpread_cons a p b ▸ ih _ (nodupKeys_jsObjInsert a p.1 p.2 h)

theorem nodupKeys_generateComponents {σ : Type} (defs : List (String × σ)) :
    ((generateComponents defs).map Prod.fst).Nodup :=
  nodupKeys_jsSpread [] defs (by simp)

theorem lookupJs_jsSpread_not_mem {σ : Type} (b a : List (String × σ)) (k : String)
    (h : ∀ p ∈ b, p.1 ≠ k) : lookupJs (jsSpread a b) k = lookupJs a k := by
  induction b generalizing a with
  | nil => rfl
  | cons p b ih =>
      rw [jsSpread_cons]
      rw [ih _ fun q hq => h q (List.mem_cons_of_mem p hq)]
      exact lookupJs_jsObjInsert_ne a p.1 k p.2 fun hk => h p (List.mem_cons_self p b) hk.symm

theorem lookupJs_jsSpread_right {σ : Type} (b a : List (String × σ)) (k : String) (v : σ)
    (hb : (b.map Prod.fst).Nodup) (h : lookupJs b k = some v) :
    lookupJs (jsSpread a b) k = some v := by
  induction b generalizing a with
  | nil => simp [lookupJs] at h
  | cons p b ih =>
      rw [List.map_cons, List.nodup_cons] at hb
      obtain ⟨hhead, htail⟩ := hb
      rw [jsSpread_cons]
      by_cases hp : p.1 = k
      · have hv : v = p.2 := by
          unfold lookupJs at h
          rw [List.find?_cons_of_pos _ (by simp [hp])] at h
          simpa using h.symm
        have hnotin : ∀ q ∈ b, q.1 ≠ k := by
          intro q hq hqk
          exact hhead (by rw [hp, ← hqk]; exact List.mem_map_of_mem Prod.fst hq)
        rw [lookupJs_jsSpread_not_mem b _ k hnotin, hv, ← hp]
        exact lookupJs_jsObjInsert_self a p.1 p.2
      · have h' : lookupJs b k = some v := by
          unfold lookupJs at h
          rwa [List.find?_cons_of_neg _ (by simp [hp])] at h
        exact ih _ htail h'

theorem generateComponents_append_single {σ : Type} (l : List (String × σ)) (n : String) (s : σ) :
    generateComponents (l ++ [(n, s)]) = jsObjInsert (generateComponents l) n s := by
  unfold generateComponents
  rw [List.foldl_append]
  rfl

theorem lookupJs_generateComponents_register {σ : Type} (l : List (String × σ))
    (n : String) (s : σ) :
    lookupJs (generateComponents (registryRegister l n s)) n = some s := by
  rw [registryRegister, generateComponents_append_single]
  exact lookupJs_jsObjInsert_self _ n s

theorem lookupJs_eq_some_of_mem_nodup {σ : Type} (m : List (String × σ)) (k : String) (v : σ)
    (hn : (m.map Prod.fst).Nodup) (hm : (k, v) ∈ m) : lookupJs m k = some v := by
  induction m with
  | nil => cases hm
  | cons p rest ih =>
      rw [List.map_cons, List.nodup_cons] at hn
      obtain ⟨hhead, htail⟩ := hn
      rcases List.mem_cons.mp hm with h | h
      · unfold lookupJs
        rw [List.find?_cons_of_pos _ (by simp [← h])]
        simp [← h]
      · have hkmem : k ∈ rest.map Prod.fst := List.mem_map_of_mem Prod.fst h
        have hpk : p.1 ≠ k := by
          intro hpk
          exact hhead (by rw [hpk]; exact hkmem)
        unfold lookupJs
        rw [List.find?_cons_of_neg _ (by simp [hpk])]
        exact ih htail h

theorem lookupJs_eq_of_perm {σ : Type} (m m' : List (String × σ))
    (hp : m.Perm m') (hn : (m.map Prod.fst).Nodup) (k : String) :
    lookupJs m' k = lookupJs m k := by
  cases hl : lookupJs m k with
  | some v =>
      obtain ⟨q, hq, hqv⟩ : ∃ q, m.find? (fun p => p.1 = k) = some q ∧ q.2 = v := by
        unfold lookupJs at hl
        rcases h : m.find? (fun p => p.1 = k) with _ | q
        · rw [h] at hl; simp at hl
        · rw [h] at hl
          exact ⟨q, h, by simpa using hl⟩
      have hqk : q.1 = k := by simpa using List.find?_some hq
      have hqeq : q = (k, v) := Prod.ext hqk hqv
      have hmem : (k, v) ∈ m := hqeq ▸ List.mem_of_find?_eq_some hq
      exact lookupJs_eq_some_of_mem_nodup m' k v ((hp.map Prod.fst).nodup_iff.mp hn)
        (hp.mem_iff.mp hmem)
  | none =>
      unfold lookupJs at hl ⊢
      have hnone : m.find? (fun p => p.1 = k) = none := by
        rcases h : m.find? (fun p => p.1 = k) with _ | q
        · exact h
        · rw [h] at hl; simp at hl
      have hall : ∀ x ∈ m, ¬ (x.1 = k) := by
        intro x hx
        have := List.find?_eq_none.mp hnone x hx
        simpa using this
      rw [List.find?_eq_none.mpr fun x hx => by
        simpa using hall x (hp.mem_iff.mpr hx)]
      rfl

theorem keys_jsSpread {σ : Type} (b a : List (String × σ))
    (hb : (b.map Prod.fst).Nodup) :
    (jsSpread a b).map Prod.fst =
      a.map Prod.fst ++
        (b.map Prod.fst).filter (fun k => decide (k ∉ a.map Prod.fst)) := by
  induction b generalizing a with
  | nil => simp [jsSpread_nil]
  | cons p b ih =>
      rw [List.map_cons, List.nodup_cons] at hb
      obtain ⟨hhead, htail⟩ := hb
      rw [jsSpread_cons, ih _ htail, keys_jsObjInsert, List.map_cons, List.filter_cons]
      by_cases hk : p.1 ∈ a.map Prod.fst
      · rw [if_pos hk]
        simp [hk]
      · rw [if_neg hk]
        have hcong :
            (b.map Prod.fst).filter
                (fun k => decide (k ∉ a.map Prod.fst ++ [p.1])) =
              (b.map Prod.fst).filter (fun k => decide (k ∉ a.map Prod.fst)) := by
          apply List.filter_congr
          intro x hx
          have hxp : x ≠ p.1 := fun hxp => hhead (hxp ▸ hx)
          simp [List.mem_append, hxp]
        rw [hcong]
        simp [hk]

theorem perm_applySortPolicy {σ : Type} (sort : String) (lc : String → String → Int)
    (m : List (String × σ)) : (applySortPolicy sort lc m).Perm m := by
  unfold applySortPolicy
  split
  · exact List.perm_insertionSort _ m
  · split
    · exact List.perm_insertionSort _ m
    · exact List.Perm.refl m

theorem char_eq_of_toNat_eq {c d : Char} (h : c.toNat = d.toNat) : c = d :=
  Char.eq_of_val_eq (UInt32.toNat.inj h)

theorem charListLtB_irrefl (xs : List Char) : charListLtB xs xs = false := by
  induction xs with
  | nil => rfl
  | cons c cs ih => simp [charListLtB, ih]

theorem charListLtB_trans (xs : List Char) : ∀ (ys zs : List Char),
    charListLtB xs ys = true → charListLtB ys zs = true → charListLtB xs zs = true := by
  induction xs with
  | nil =>
      intro ys zs h1 h2
      cases ys with
      | nil => simp [charListLtB] at h1
      | cons y ys =>
          cases zs with
          | nil => simp [charListLtB] at h2
          | cons z zs => rfl
  | cons x xs ih =>
      intro ys zs h1 h2
      cases ys with
      | nil => simp [charListLtB] at h1
      | cons y ys =>
          cases zs with
          | nil => simp [charListLtB] at h2
          | cons z zs =>
              simp only [charListLtB] at h1 h2 ⊢
              by_cases hxy : x.toNat < y.toNat
              · by_cases hyz : y.toNat < z.toNat
                · simp [Nat.lt_trans hxy hyz]
                · rw [if_neg hyz] at h2
                  by_cases hzy : z.toNat < y.toNat
                  · rw [if_pos hzy] at h2
                    simp at h2
                  · rw [if_neg hzy] at h2
                    have hxz : x.toNat < z.toNat := by omega
                    simp [hxz]
              · rw [if_neg hxy] at h1
                by_cases hyx : y.toNat < x.toNat
                · rw [if_pos hyx] at h1
                  simp at h1
                · rw [if_neg hyx] at h1
                  by_cases hyz : y.toNat < z.toNat
                  · have hxz : x.toNat < z.toNat := by omega
                    simp [hxz]
                  · rw [if_neg hyz] at h2
                    by_cases hzy : z.toNat < y.toNat
                    · rw [if_pos hzy] at h2
                      simp at h2
                    · rw [if_neg hzy] at h2
                      have hxz1 : ¬ x.toNat < z.toNat := by omega
                      have hxz2 : ¬ z.toNat < x.toNat := by omega
                      rw [if_neg hxz1, if_neg hxz2]
                      exact ih ys zs h1 h2

theorem charListLtB_trichotomy (xs : List Char) : ∀ (ys : List Char),
    charListLtB xs ys = true ∨ charListLtB ys xs = true ∨ xs = ys := by
  induction xs with
  | nil =>
      intro ys
      cases ys with
      | nil => exact Or.inr (Or.inr rfl)
      | cons y ys => exact Or.inl rfl
  | cons x xs ih =>
      intro ys
      cases ys with
      | nil => exact Or.inr (Or.inl rfl)
      | cons y ys =>
          by_cases hxy : x.toNat < y.toNat
          · exact Or.inl (by simp [charListLtB, hxy])
          · by_cases hyx : y.toNat < x.toNat
            · exact Or.inr (Or.inl (by simp [charListLtB, hyx]))
            · have hchar : x = y := char_eq_of_toNat_eq (by omega)
              subst hchar
              rcases ih ys with h | h | h
              · exact Or.inl (by simp [charListLtB, h])
              · exact Or.inr (Or.inl (by simp [charListLtB, h]))
              · exact Or.inr (Or.inr (by rw [h]))

theorem charListLtB_asymm (xs ys : List Char) (h : charListLtB xs ys = true) :
    charListLtB ys xs = false := by
  cases hcc : charListLtB ys xs with
  | false => rfl
  | true =>
      have hx := charListLtB_trans xs ys xs h hcc
      rw [charListLtB_irrefl xs] at hx
      simp at hx

theorem stringLtB_asymm (a b : String) (h : stringLtB a b = true) :
    stringLtB b a = false :=
  charListLtB_asymm a.data b.data h

theorem alphaCompare_nonpos_iff (a b : String) :
    alphaCompare a b ≤ 0 ↔ stringLtB b a = false := by
  unfold alphaCompare
  by_cases h1 : stringLtB a b = true
  · rw [if_pos h1]
    constructor
    · intro _
      exact stringLtB_asymm a b h1
    · intro _
      norm_num
  · rw [if_neg h1]
    by_cases h2 : stringLtB b a = true
    · rw [if_pos h2]
      constructor
      · intro h
        norm_num at h
      · intro h
        rw [h2] at h
        simp at h
    · rw [if_neg h2]
      constructor
      · intro _
        cases hcc : stringLtB b a with
        | false => rfl
        | true => exact absurd hcc h2
      · intro _
        norm_num

theorem stringLtB_false_of_ne_true {a b : String} (h : ¬ stringLtB a b = true) :
    stringLtB a b = false := by
  cases hcc : stringLtB a b with
  | false => rfl
  | true => exact absurd hcc h

theorem alphaCompareRel_total {σ : Type} :
    IsTotal (String × σ) (fun p q => alphaCompare p.1 q.1 ≤ 0) := by
  constructor
  intro p q
  by_cases h : stringLtB q.1 p.1 = true
  · exact Or.inr ((alphaCompare_nonpos_iff q.1 p.1).mpr (stringLtB_asymm _ _ h))
  · exact Or.inl ((alphaCompare_nonpos_iff p.1 q.1).mpr (stringLtB_false_of_ne_true h))

theorem alphaCompareRel_trans {σ : Type} :
    IsTrans (String × σ) (fun p q => alphaCompare p.1 q.1 ≤ 0) := by
  constructor
  intro p q r hpq hqr
  have h1 : charListLtB q.1.data p.1.data = false :=
    (alphaCompare_nonpos_iff p.1 q.1).mp hpq
  have h2 : charListLtB r.1.data q.1.data = false :=
    (alphaCompare_nonpos_iff q.1 r.1).mp hqr
  refine (alphaCompare_nonpos_iff p.1 r.1).mpr ?_
  cases hc : charListLtB r.1.data p.1.data with
  | false => exact hc
  | true =>
      rcases charListLtB_trichotomy r.1.data q.1.data with h | h | h
      · rw [h2] at h
        simp at h
      · have hqp := charListLtB_trans q.1.data r.1.data p.1.data h hc
        rw [h1] at hqp
        simp at hqp
      · rw [h] at hc
        rw [h1] at hc
        simp at hc

theorem pairwise_keys_insertionSort_alpha {σ : Type} (m : List (String × σ)) :
    ((List.insertionSort (fun p q : String × σ => alphaCompare p.1 q.1 ≤ 0) m).map
      Prod.fst).Pairwise (fun x y => stringLtB y x = false) := by
  have htot : IsTotal (String × σ) (fun p q => alphaCompare p.1 q.1 ≤ 0) :=
    alphaCompareRel_total
  have htrans : IsTrans (String × σ) (fun p q => alphaCompare p.1 q.1 ≤ 0) :=
    alphaCompareRel_trans
  have hs := List.sorted_insertionSort (fun p q : String × σ => alphaCompare p.1 q.1 ≤ 0) m
  exact hs.map Prod.fst fun p q hpq => (alphaCompare_nonpos_iff p.1 q.1).mp hpq

theorem applySortPolicy_alpha {σ : Type} (lc : String → String → Int)
    (m : List (String × σ)) :
    applySortPolicy "alpha" lc m =
      List.insertionSort (fun p q : String × σ => alphaCompare p.1 q.1 ≤ 0) m := by
  unfold applySortPolicy
  rw [if_pos rfl]

theorem applySortPolicy_other {σ : Type} (sort : String) (lc : String → String → Int)
    (m : List (String × σ)) (h1 : sort ≠ "alpha") (h2 : sort ≠ "localeCompare") :
    applySortPolicy sort lc m = m := by
  unfold applySortPolicy
  rw [if_neg h1, if_neg h2]

/-! ### Claim theorems -/

/-- Claim C1: for every type reference whose (lazily resolved) type
carries the `zodSchema` marker, the patched `exploreModelSchema` returns
that type's name, and afterwards the Schema Registry contains an entry
under that exact name whose value is the exact schema object attached to
the type (both as a registration and in the component map generated from
the registry). -/
theorem claim_C1 {σ : Type}
    (orig : TypeRef σ → List (String × σ) → List String → OrigExploreResult σ)
    (registry : List (String × σ)) (type : TypeInput σ)
    (schemas : List (String × σ)) (schemaRefsStack : List String) (zs : σ)
    (h : (resolveLazyType type).zodSchema = some zs) :
    (exploreModelSchema orig registry type schemas schemaRefsStack).result
        = ExploreRes.name (resolveLazyType type).name
    ∧ ((resolveLazyType type).name, zs)
        ∈ (exploreModelSchema orig registry type schemas schemaRefsStack).registry
    ∧ lookupJs
        (generateComponents
          (exploreModelSchema orig registry type schemas schemaRefsStack).registry)
        (resolveLazyType type).name = some zs := by
  have he : exploreModelSchema orig registry type schemas schemaRefsStack =
      ⟨ExploreRes.name (resolveLazyType type).name,
        registryRegister registry (resolveLazyType type).name zs,
        schemas, schemaRefsStack⟩ := by
    simp only [exploreModelSchema, h]
  rw [he]
  refine ⟨rfl, ?_,
    lookupJs_generateComponents_register registry (resolveLazyType type).name zs⟩
  simp [registryRegister]

/-- Witness for C1 at a concrete marker-carrying type. -/
theorem claim_C1_witness :
    (exploreModelSchema exOrig [] (TypeInput.direct ⟨"User", some 5⟩) [] []).result
        = ExploreRes.name "User"
    ∧ ("User", 5)
        ∈ (exploreModelSchema exOrig [] (TypeInput.direct ⟨"User", some 5⟩) [] []).registry
    ∧ lookupJs
        (generateComponents
          (exploreModelSchema exOrig [] (TypeInput.direct ⟨"User", some 5⟩) [] []).registry)
        "User" = some 5 :=
  claim_C1 exOrig [] (TypeInput.direct ⟨"User", some 5⟩) [] [] 5 rfl

/-- Claim C2: for every type reference whose (lazily resolved) type does
not carry the `zodSchema` marker, the patched `exploreModelSchema`
returns exactly the result of the original implementation on the same
arguments, with exactly the original's effects on the schemas map and
the refs stack, and the registry untouched. -/
theorem claim_C2 {σ : Type}
    (orig : TypeRef σ → List (String × σ) → List String → OrigExploreResult σ)
    (registry : List (String × σ)) (type : TypeInput σ)
    (schemas : List (String × σ)) (schemaRefsStack : List String)
    (h : (resolveLazyType type).zodSchema = none) :
    exploreModelSchema orig registry type schemas schemaRefsStack =
      ⟨(orig (resolveLazyType type) schemas schemaRefsStack).result, registry,
       (orig (resolveLazyType type) schemas schemaRefsStack).schemas,
       (orig (resolveLazyType type) schemas schemaRefsStack).schemaRefsStack⟩ := by
  simp only [exploreModelSchema, h]

/-- Witness for C2 at a concrete unmarked lazy type. -/
theorem claim_C2_witness :
    exploreModelSchema exOrig [("R", 3)] (TypeInput.lazy fun _ => ⟨"Plain", none⟩)
        [("s", 1)] ["st"]
      = ⟨ExploreRes.inlineSchema 42, [("R", 3)], [("orig", 0), ("s", 1)], ["Plain", "st"]⟩ :=
  claim_C2 exOrig [("R", 3)] (TypeInput.lazy fun _ => ⟨"Plain", none⟩) [("s", 1)] ["st"] rfl

/-- Claim C3: in the patched `scanApplication`, when the original scan's
schema map holds `V1` under a key and the registry-derived component map
holds `V2` under the same key, the merged map (and, with the no-sort
policy, the final document's schema map) holds `V2` under that key: the
registry-derived value overwrites on every name collision. -/
theorem claim_C3 {σ π ρ α β : Type} (lc : String → String → Int)
    (orgScan : α → β → OpenAPIObject σ π ρ) (registry : List (String × σ))
    (app : α) (options : β) (k : String) (v1 v2 : σ)
    (h1 : lookupJs (orgScan app options).components.schemas k = some v1)
    (h2 : lookupJs (generateComponents registry) k = some v2) :
    lookupJs
        (jsSpread (orgScan app options).components.schemas (generateComponents registry)) k
      = some v2
    ∧ lookupJs
        (scanApplication "default" lc orgScan registry app options).components.schemas k
      = some v2 := by
  have hmerge := lookupJs_jsSpread_right (generateComponents registry)
    (orgScan app options).components.schemas k v2 (nodupKeys_generateComponents registry) h2
  refine ⟨hmerge, ?_⟩
  show lookupJs
      (applySortPolicy "default" lc
        (jsSpread (orgScan app options).components.schemas (generateComponents registry))) k
    = some v2
  rw [applySortPolicy_other _ lc _ (by decide) (by decide)]
  exact hmerge

/-- Witness for C3: the original scan holds `2` under `A`, the registry
holds `9`, and the merged and final maps hold `9`. -/
theorem claim_C3_witness :
    lookupJs (jsSpread (exOrgScan () ()).components.schemas (generateComponents [("A", 9)])) "A"
        = some 9
    ∧ lookupJs
        (scanApplication "default" exLocale exOrgScan [("A", 9)] () ()).components.schemas "A"
        = some 9 :=
  claim_C3 exLocale exOrgScan [("A", 9)] () () "A" 2 9 (by decide) (by decide)

/-- Claim C4: for every merged schema map (no duplicate keys, as for any
JS object) and every sort policy, the sort step only reorders entries: the
result is a permutation of the input (same entries, same key multiset)
and the value associated with each key is unchanged. -/
theorem claim_C4 {σ : Type} (sort : String) (lc : String → String → Int)
    (m : List (String × σ)) (hm : (m.map Prod.fst).Nodup) :
    (applySortPolicy sort lc m).Perm m
    ∧ ((applySortPolicy sort lc m).map Prod.fst).Perm (m.map Prod.fst)
    ∧ ∀ k, lookupJs (applySortPolicy sort lc m) k = lookupJs m k := by
  refine ⟨perm_applySortPolicy sort lc m, (perm_applySortPolicy sort lc m).map Prod.fst,
    fun k => ?_⟩
  exact lookupJs_eq_of_perm m (applySortPolicy sort lc m)
    (perm_applySortPolicy sort lc m).symm hm k

/-- Witness for C4 under the `alpha` policy on a concrete two-entry map. -/
theorem claim_C4_witness :
    (applySortPolicy "alpha" exLocale [("b", (1 : Nat)), ("A", 2)]).Perm [("b", 1), ("A", 2)]
    ∧ lookupJs (applySortPolicy "alpha" exLocale [("b", (1 : Nat)), ("A", 2)]) "A"
        = lookupJs [("b", (1 : Nat)), ("A", 2)] "A" :=
  ⟨(claim_C4 "alpha" exLocale [("b", 1), ("A", 2)] (by decide)).1,
   (claim_C4 "alpha" exLocale [("b", 1), ("A", 2)] (by decide)).2.2 "A"⟩

/-- Claim C5: with the `alpha` policy, the keys of the final schema map
are in ascending lexicographic (code-point) order — no later key is
strictly smaller than an earlier one — and in particular the input key
set `b`, `A`, `c` comes out in the order `A`, `b`, `c`. -/
theorem claim_C5 :
    (∀ (σ π ρ α β : Type) (lc : String → String → Int)
        (orgScan : α → β → OpenAPIObject σ π ρ) (registry : List (String × σ))
        (app : α) (options : β),
      (((scanApplication "alpha" lc orgScan registry app options).components.schemas).map
          Prod.fst).Pairwise (fun x y => stringLtB y x = false))
    ∧ ((scanApplication "alpha" exLocale exOrgScan [] () ()).components.schemas).map Prod.fst
        = ["A", "b", "c"] := by
  constructor
  · intro σ π ρ α β lc orgScan registry app options
    show ((applySortPolicy "alpha" lc
        (jsSpread (orgScan app options).components.schemas
          (generateComponents registry))).map Prod.fst).Pairwise
        (fun x y => stringLtB y x = false)
    rw [applySortPolicy_alpha]
    exact pairwise_keys_insertionSort_alpha _
  · decide

/-- Claim C6: every configured sort value other than `alpha` and
`localeCompare` — including the omitted case, which resolves to
`default`, and unrecognized strings — yields no reordering: the final
schema map is exactly the merge result, whose entries are the
original-scan keys in their order followed by the registry-derived keys
not already present. -/
theorem claim_C6 {M σ π ρ α β : Type} (requireModule : String → M)
    (sortOpt : Option String) (mods : PatchModules M)
    (lc : String → String → Int) (orgScan : α → β → OpenAPIObject σ π ρ)
    (registry : List (String × σ)) (app : α) (options : β)
    (h1 : (patchNestjsSwagger requireModule sortOpt mods).sort ≠ "alpha")
    (h2 : (patchNestjsSwagger requireModule sortOpt mods).sort ≠ "localeCompare") :
    (scanApplication (patchNestjsSwagger requireModule sortOpt mods).sort lc orgScan
          registry app options).components.schemas
      = jsSpread (orgScan app options).components.schemas (generateComponents registry)
    ∧ (jsSpread (orgScan app options).components.schemas
          (generateComponents registry)).map Prod.fst
      = (orgScan app options).components.schemas.map Prod.fst ++
          ((generateComponents registry).map Prod.fst).filter
            (fun k => decide (k ∉ (orgScan app options).components.schemas.map Prod.fst)) := by
  refine ⟨?_, keys_jsSpread _ _ (nodupKeys_generateComponents registry)⟩
  show applySortPolicy (patchNestjsSwagger requireModule sortOpt mods).sort lc
      (jsSpread (orgScan app options).components.schemas (generateComponents registry))
    = jsSpread (orgScan app options).components.schemas (generateComponents registry)
  exact applySortPolicy_other _ lc _ h1 h2

/-- Witness for C6 with the sort option omitted (resolving to `default`). -/
theorem claim_C6_witness :
    (patchNestjsSwagger (fun _ : String => ()) none (PatchModules.mk none none)).sort ≠ "alpha"
    ∧ (patchNestjsSwagger (fun _ : String => ()) none (PatchModules.mk none none)).sort
        ≠ "localeCompare"
    ∧ ((scanApplication
          (patchNestjsSwagger (fun _ : String => ()) none (PatchModules.mk none none)).sort
          exLocale exOrgScan [("New", 4)] () ()).components.schemas
        = jsSpread (exOrgScan () ()).components.schemas (generateComponents [("New", 4)])
      ∧ (jsSpread (exOrgScan () ()).components.schemas
            (generateComponents [("New", 4)])).map Prod.fst
        = (exOrgScan () ()).components.schemas.map Prod.fst ++
            ((generateComponents [("New", 4)]).map Prod.fst).filter
              (fun k => decide (k ∉ (exOrgScan () ()).components.schemas.map Prod.fst))) :=
  ⟨by decide, by decide,
    claim_C6 (fun _ : String => ()) none (PatchModules.mk none none) exLocale exOrgScan
      [("New", 4)] () () (by decide) (by decide)⟩

/-- Claim C7: the two collaborator-module references are optional; when
neither is supplied, `patchNestjsSwagger` resolves them by requiring the
real framework module paths. -/
theorem claim_C7 {M : Type} (requireModule : String → M) (sortOpt : Option String) :
    (patchNestjsSwagger requireModule sortOpt
        (PatchModules.mk none none)).schemaObjectFactoryModule
      = requireModule "@nestjs/swagger/dist/services/schema-object-factory"
    ∧ (patchNestjsSwagger requireModule sortOpt
        (PatchModules.mk none none)).swaggerScannerModule
      = requireModule "@nestjs/swagger/dist/swagger-scanner" :=
  ⟨rfl, rfl⟩

/-- Claim C8: registering twice under the same name, with different
schemas, makes the component map generated from the registry hold the
later schema only under that name (and the generated map has no
duplicate keys). -/
theorem claim_C8 {σ : Type} (registry : List (String × σ)) (n : String) (s1 s2 : σ)
    (h : s1 ≠ s2) :
    lookupJs (generateComponents (registryRegister (registryRegister registry n s1) n s2)) n
        = some s2
    ∧ lookupJs (generateComponents (registryRegister (registryRegister registry n s1) n s2)) n
        ≠ some s1
    ∧ ((generateComponents (registryRegister (registryRegister registry n s1) n s2)).map
        Prod.fst).Nodup := by
  have hl := lookupJs_generateComponents_register (registryRegister registry n s1) n s2
  refine ⟨hl, ?_, nodupKeys_generateComponents _⟩
  rw [hl]
  intro hc
  exact h (Option.some.inj hc).symm

/-- Witness for C8: two registrations of `User`, the later one wins. -/
theorem claim_C8_witness :
    lookupJs (generateComponents (registryRegister (registryRegister [] "User" (1 : Nat))
        "User" 2)) "User" = some 2
    ∧ lookupJs (generateComponents (registryRegister (registryRegister [] "User" (1 : Nat))
        "User" 2)) "User" ≠ some 1
    ∧ ((generateComponents (registryRegister (registryRegister [] "User" (1 : Nat))
        "User" 2)).map Prod.fst).Nodup :=
  claim_C8 [] "User" 1 2 (by decide)

/-- Claim C9: the patched `scanApplication` returns the original scan's
document with only `components.schemas` replaced; all other document
fields and all other members of `components` are unchanged. -/
theorem claim_C9 {σ π ρ α β : Type} (sort : String) (lc : String → String → Int)
    (orgScan : α → β → OpenAPIObject σ π ρ) (registry : List (String × σ))
    (app : α) (options : β) :
    (scanApplication sort lc orgScan registry app options).rest = (orgScan app options).rest
    ∧ (scanApplication sort lc orgScan registry app options).components.rest
        = (orgScan app options).components.rest :=
  ⟨rfl, rfl⟩

/-- Claim C10: on the marker path, the patched `exploreModelSchema`
leaves the shared schemas map and the refs stack untouched; the only
state written is the registry, which gains exactly the one
registration. -/
theorem claim_C10 {σ : Type}
    (orig : TypeRef σ → List (String × σ) → List String → OrigExploreResult σ)
    (registry : List (String × σ)) (type : TypeInput σ)
    (schemas : List (String × σ)) (schemaRefsStack : List String) (zs : σ)
    (h : (resolveLazyType type).zodSchema = some zs) :
    (exploreModelSchema orig registry type schemas schemaRefsStack).schemas = schemas
    ∧ (exploreModelSchema orig registry type schemas schemaRefsStack).schemaRefsStack
        = schemaRefsStack
    ∧ (exploreModelSchema orig registry type schemas schemaRefsStack).registry
        = registryRegister registry (resolveLazyType type).name zs := by
  simp [exploreModelSchema, h]

/-- Witness for C10 at a concrete marker-carrying lazy type. -/
theorem claim_C10_witness :
    (exploreModelSchema exOrig [("R", 3)] (TypeInput.lazy fun _ => ⟨"CatShelter", some 7⟩)
        [("s", 1)] ["st"]).schemas = [("s", 1)]
    ∧ (exploreModelSchema exOrig [("R", 3)] (TypeInput.lazy fun _ => ⟨"CatShelter", some 7⟩)
        [("s", 1)] ["st"]).schemaRefsStack = ["st"]
    ∧ (exploreModelSchema exOrig [("R", 3)] (TypeInput.lazy fun _ => ⟨"CatShelter", some 7⟩)
        [("s", 1)] ["st"]).registry = [("R", 3), ("CatShelter", 7)] :=
  claim_C10 exOrig [("R", 3)] (TypeInput.lazy fun _ => ⟨"CatShelter", some 7⟩)
    [("s", 1)] ["st"] 7 rfl
